import Mathlib

/-!
Verification of `src/main.js` (ph-pharma.script.js), a client-side DOM utility
script.  The script's behaviours are shallowly embedded here:

* the text filter wired on `input[data-filter-target]` (lines 90-101),
* `parseCellValue` and the `table.sortable` click-sort machinery
  (lines 108-144), with JavaScript's stable `Array.prototype.sort`
  modelled by `List.insertionSort` (stable, and sorted w.r.t. the
  comparator — the unique list a conforming stable sort produces),
* the modal open/close handlers (lines 151-177, 254-259),
* the `window.PhPharma.copyText` clipboard helper (line 267),
* `mountCharts` (lines 204-234).

Strings are Lean `String`s (JavaScript's UTF-16 code-unit view is abstracted
to the character level; `trim`/`toLowerCase` are `jsTrim`/`jsToLower` below),
numbers parsed by `parseFloat` are modelled exactly over `ℚ` (IEEE-754
rounding and overflow to `Infinity` are abstracted away), `NaN`/non-finite
parse results are `Option.none`, and the `-Infinity` sort key is `⊥` in
`WithBot ℚ`.  Browser APIs that the script only calls (clipboard write,
`JSON.parse` success, `document.querySelector` lookup) enter as explicit
oracle arguments.
-/

namespace PhPharma

/-! ### JavaScript string primitives

`String.prototype.trim` and `String.prototype.toLowerCase`, written as
structural recursions over the character list (Lean's own `String.trim` /
`String.toLower` compute through byte-position auxiliaries that the kernel
cannot evaluate). -/

/-- JavaScript `s.trim()`: drop whitespace from both ends. -/
def jsTrim (s : String) : String :=
  String.mk (((s.data.dropWhile Char.isWhitespace).reverse.dropWhile
    Char.isWhitespace).reverse)

/-- JavaScript `s.toLowerCase()` (ASCII case mapping). -/
def jsToLower (s : String) : String :=
  String.mk (s.data.map Char.toLower)

/-! ### The JavaScript `String.prototype.includes` test -/

/-- Boolean prefix test on character lists (`List.isPrefixOf` spelled out). -/
def prefixOfB (p t : List Char) : Bool :=
  match p, t with
  | [], _ => true
  | _ :: _, [] => false
  | x :: xs, y :: ys => x == y && prefixOfB xs ys

/-- `q` occurs as a contiguous substring of `t`; this is the semantics of
JavaScript's `text.includes(q)` used by the filter handler. -/
def substrB (q : List Char) : List Char → Bool
  | [] => prefixOfB q []
  | c :: ts => prefixOfB q (c :: ts) || substrB q ts

theorem prefixOfB_iff (q t : List Char) : prefixOfB q t = true ↔ ∃ v, q ++ v = t := by
  induction q generalizing t with
  | nil => simp [prefixOfB]
  | cons a as ih =>
    cases t with
    | nil => simp [prefixOfB]
    | cons b bs =>
      simp only [prefixOfB, Bool.and_eq_true, beq_iff_eq, ih]
      constructor
      · rintro ⟨rfl, v, rfl⟩; exact ⟨v, rfl⟩
      · rintro ⟨v, hv⟩
        injection hv with h1 h2
        exact ⟨h1, v, h2⟩

theorem substrB_iff (q t : List Char) : substrB q t = true ↔ ∃ u v, u ++ q ++ v = t := by
  induction t with
  | nil =>
    simp only [substrB, prefixOfB_iff]
    constructor
    · rintro ⟨v, hv⟩; exact ⟨[], v, by simpa using hv⟩
    · rintro ⟨u, v, huv⟩
      have hu : u = [] := by
        cases u with
        | nil => rfl
        | cons x xs => simp at huv
      subst hu
      exact ⟨v, by simpa using huv⟩
  | cons c ts ih =>
    simp only [substrB, Bool.or_eq_true, prefixOfB_iff, ih]
    constructor
    · rintro (⟨v, hv⟩ | ⟨u, v, huv⟩)
      · exact ⟨[], v, by simpa using hv⟩
      · exact ⟨c :: u, v, by simp [← huv]⟩
    · rintro ⟨u, v, huv⟩
      cases u with
      | nil => exact Or.inl ⟨v, by simpa using huv⟩
      | cons x xs =>
        injection huv with h1 h2
        exact Or.inr ⟨xs, v, h2⟩

/-! ### The filter handler (`input[data-filter-target]`, src/main.js 90-101)

Each child of the filter target is an `Item`: its `textContent` (never
written by the script), a stable identity, and its `style.display`. -/

structure Item where
  id : Nat
  text : String
  display : String
deriving DecidableEq, Repr

/-- One iteration of the `items.forEach` body: given the already
trimmed-and-lowercased query `q`, set
`it.style.display = q === '' || text.includes(q) ? '' : 'none'`. -/
def setDisplay (q : String) (it : Item) : Item :=
  let text := jsToLower (jsTrim it.text)
  { it with display := if q = "" || substrB q.data text.data then "" else "none" }

/-- The whole `input` listener body: `const q = input.value.trim().toLowerCase()`
followed by the `items.forEach` loop. -/
def applyFilter (value : String) (items : List Item) : List Item :=
  let q := jsToLower (jsTrim value)
  items.map (setDisplay q)

/-- A row is visible when its display style is not `'none'`. -/
def visible (it : Item) : Prop := it.display ≠ "none"

instance (it : Item) : Decidable (visible it) := by
  unfold visible; infer_instance

theorem visible_setDisplay (q : String) (it : Item) :
    visible (setDisplay q it) ↔
      (q = "" ∨ substrB q.data (jsToLower (jsTrim it.text)).data = true) := by
  unfold visible setDisplay
  by_cases h : (decide (q = "") || substrB q.data (jsToLower (jsTrim it.text)).data) = true
  · simpa [h] using by
      simpa [Bool.or_eq_true, decide_eq_true_eq] using h
  · simp only [h]
    simp only [Bool.or_eq_true, decide_eq_true_eq] at h
    simpa using h

/-- Claim C1: for every query string and every row captured at initialization,
after the filter operation runs the row is visible (display style not `'none'`)
iff the trimmed, lowercased query is empty or occurs as a contiguous substring
of the row's trimmed, lowercased text content; rows failing the test are hidden
(their display style becomes `'none'`, which is exactly `¬ visible`). -/
theorem filter_visible_iff (value : String) (items : List Item) :
    List.Forall₂ (fun before after =>
        (visible after ↔ (jsToLower (jsTrim value) = "" ∨
          ∃ u v, u ++ (jsToLower (jsTrim value)).data ++ v = (jsToLower (jsTrim before.text)).data)) ∧
        ((¬ (jsToLower (jsTrim value) = "" ∨
          ∃ u v, u ++ (jsToLower (jsTrim value)).data ++ v = (jsToLower (jsTrim before.text)).data)) →
          after.display = "none"))
      items (applyFilter value items) := by
  unfold applyFilter
  induction items with
  | nil => exact List.Forall₂.nil
  | cons it rest ih =>
    refine List.Forall₂.cons ?_ ih
    have hvis := visible_setDisplay (jsToLower (jsTrim value)) it
    rw [substrB_iff] at hvis
    refine ⟨hvis, fun hnot => ?_⟩
    have : ¬ visible (setDisplay (jsToLower (jsTrim value)) it) := fun hv => hnot (hvis.mp hv)
    unfold visible at this
    exact not_not.mp this

/-- Claim C7: filtering is idempotent — applying the filter twice with the same
query produces the same item states (hence the same set of visible rows) as
applying it once. -/
theorem filter_idempotent (value : String) (items : List Item) :
    applyFilter value (applyFilter value items) = applyFilter value items ∧
    (applyFilter value (applyFilter value items)).filter (fun it => decide (visible it)) =
      (applyFilter value items).filter (fun it => decide (visible it)) := by
  have h : applyFilter value (applyFilter value items) = applyFilter value items := by
    unfold applyFilter
    rw [List.map_map]
    refine List.map_congr_left (fun it _ => ?_)
    simp only [Function.comp]
    unfold setDisplay
    rfl
  exact ⟨h, by rw [h]⟩

/-! ### `parseCellValue` (src/main.js 108-117)

`txt.replace(/[,$\s%]/g, '')` strips commas, dollar signs, whitespace and
percent signs anywhere in the string; `parseFloat` then parses the longest
numeric prefix (optional sign, digits with optional fraction, optional
exponent, or `Infinity`), yielding `NaN` when there is none.
`Number.isFinite(v) ? v : -Infinity` maps `NaN` and `±Infinity` to the
`-Infinity` sort key, i.e. `⊥ : WithBot ℚ` here; `jsParseFloatFinite`
returns `none` exactly in those non-finite cases. -/

/-- The character class `[,$\s%]` of the `replace` call. -/
def strippedChar (c : Char) : Bool :=
  c == ',' || c == '$' || c == '%' || c.isWhitespace

/-- `txt.replace(/[,$\s%]/g, '')`. -/
def stripNum (s : String) : String :=
  String.mk (s.data.filter (fun c => !strippedChar c))

/-- Value of a digit string (most significant first). -/
def digitsVal (ds : List Char) : Nat :=
  ds.foldl (fun acc c => acc * 10 + (c.toNat - 48)) 0

/-- Consume an optional leading sign, returning whether it was `'-'`. -/
def parseSign : List Char → Bool × List Char
  | '-' :: cs => (true, cs)
  | '+' :: cs => (false, cs)
  | cs => (false, cs)

/-- Exponent suffix after `e`/`E`: a signed digit string.  When no digit
follows, `parseFloat` backtracks and the exponent contributes `0`. -/
def parseExp (cs : List Char) : Int :=
  let (eneg, cs1) := parseSign cs
  let ds := cs1.takeWhile Char.isDigit
  if ds.isEmpty then 0
  else if eneg then -(digitsVal ds : Int) else (digitsVal ds : Int)

/-- JavaScript `parseFloat`, restricted to finite results: `none` stands for
`NaN` (no numeric prefix at all) and for `±Infinity` (an `Infinity` literal;
IEEE-754 overflow is abstracted away by computing exactly in `ℚ`). -/
def jsParseFloatFinite (s : String) : Option ℚ :=
  let (neg, cs1) := parseSign s.data
  if prefixOfB "Infinity".data cs1 then none
  else
    let intDs := cs1.takeWhile Char.isDigit
    let rest1 := cs1.dropWhile Char.isDigit
    let (fracDs, rest2) :=
      match rest1 with
      | '.' :: r => (r.takeWhile Char.isDigit, r.dropWhile Char.isDigit)
      | _ => (([] : List Char), rest1)
    if intDs.isEmpty && fracDs.isEmpty then none
    else
      -- sign · (int.frac) · 10^exp, written as the exact rational m · 10^e
      -- with integer mantissa m (the digit string int++frac) and
      -- e = exp - |frac|, to keep the value kernel-computable.
      let e : Int :=
        (match rest2 with
          | 'e' :: r => parseExp r
          | 'E' :: r => parseExp r
          | _ => 0) - (fracDs.length : Int)
      let m : Int := (if neg then -1 else 1) * (digitsVal (intDs ++ fracDs) : Int)
      some (if 0 ≤ e then ((m * (10 : Int) ^ e.toNat : Int) : ℚ)
        else Rat.divInt m ((10 : Int) ^ (-e).toNat))

/-- The `type === 'number'` branch of `parseCellValue`:
`const txt = cell.textContent.trim(); const n = txt.replace(/[,$\s%]/g, '');
const v = parseFloat(n); return Number.isFinite(v) ? v : -Infinity;`. -/
def parseCellValueNum (txt0 : String) : WithBot ℚ :=
  let txt := jsTrim txt0
  let n := stripNum txt
  match jsParseFloatFinite n with
  | some v => (v : WithBot ℚ)
  | none => ⊥

/-- The string branch of `parseCellValue`:
`const txt = cell.textContent.trim(); ... return txt.toLowerCase();`. -/
def parseCellValueStr (txt0 : String) : String :=
  jsToLower (jsTrim txt0)

/-! ### The sortable-table model (src/main.js 118-144) -/

/-- A `<tr>` of the `<tbody>`: its cells' `textContent`, a stable identity and
its display style (the sort never touches the latter two). -/
structure Row where
  id : Nat
  cells : List String
  display : String
deriving DecidableEq, Repr

/-- `(a.cells[index] || { textContent: '' }).textContent`: a missing cell
reads as the empty string. -/
def cellTextAt (index : Nat) (r : Row) : String :=
  r.cells.getD index ""

/-- Numeric sort key of the cell at `index`. -/
def numKey (index : Nat) (r : Row) : WithBot ℚ :=
  parseCellValueNum (cellTextAt index r)

/-- String sort key of the cell at `index`. -/
def strKey (index : Nat) (r : Row) : String :=
  parseCellValueStr (cellTextAt index r)

/-- The comparator body from `makeSortHandler`:
`if (va === vb) return 0; return va > vb ? dir : -dir;`. -/
def jsCompare {K : Type} [LinearOrder K] (dir : Int) (ka kb : K) : Int :=
  if ka = kb then 0 else if ka > kb then dir else -dir

/-- `Array.prototype.sort` keeps `a` no later than `b` when the comparator
returns `≤ 0`; this is the relation the stable sort realises. -/
def rowRel {α K : Type} [LinearOrder K] (k : α → K) (dir : Int) (a b : α) : Prop :=
  jsCompare dir (k a) (k b) ≤ 0

instance {α K : Type} [LinearOrder K] (k : α → K) (dir : Int) :
    DecidableRel (rowRel k dir) := by
  unfold rowRel; infer_instance

/-- `rows.sort(comparator)` for a column of the given declared type:
JavaScript's sort is stable (ES2019), so it is `List.insertionSort` by the
comparator relation. -/
def sortRows (ty : String) (dir : Int) (index : Nat) (rows : List Row) : List Row :=
  if ty = "number" then List.insertionSort (rowRel (numKey index) dir) rows
  else List.insertionSort (rowRel (strKey index) dir) rows

/-- A `table.sortable`: `tBodies[0]` (the handler is never attached when it is
absent) and the `data-sort-col` / `data-sort-dir` attributes (`none` =
attribute absent). -/
structure Table where
  tbody : Option (List Row)
  sortCol : Option String
  sortDir : Option String
deriving DecidableEq, Repr

/-- One click on a header wired to `makeSortHandler(index, type)`:
compute `currentAsc` from the recorded attributes, flip the direction,
sort the rows, reattach, and record column and direction. -/
def clickSort (index : Nat) (ty : String) (t : Table) : Table :=
  match t.tbody with
  | none => t
  | some rows =>
      let currentAsc : Bool :=
        decide (t.sortCol = some (toString index)) && decide (t.sortDir = some "asc")
      let dir : Int := if currentAsc then -1 else 1
      { tbody := some (sortRows ty dir index rows),
        sortCol := some (toString index),
        sortDir := some (if dir = 1 then "asc" else "desc") }

/-- Rows currently attached to the table body. -/
def tbodyRows (t : Table) : List Row :=
  t.tbody.getD []

/-- A table as first delivered by the page: no sort attributes recorded. -/
def freshTable (rows : List Row) : Table :=
  { tbody := some rows, sortCol := none, sortDir := none }

/-! ### Order theory of the comparator and of the stable sort -/

theorem jsCompare_one_le {K : Type} [LinearOrder K] {ka kb : K} :
    jsCompare 1 ka kb ≤ 0 ↔ ka ≤ kb := by
  unfold jsCompare
  split_ifs with h1 h2
  · simp [le_of_eq h1]
  · simp [le_of_lt h2, not_le.mpr h2]
  · simp [le_of_not_lt h2]

theorem jsCompare_negOne_le {K : Type} [LinearOrder K] {ka kb : K} :
    jsCompare (-1) ka kb ≤ 0 ↔ kb ≤ ka := by
  unfold jsCompare
  split_ifs with h1 h2
  · simp [le_of_eq h1.symm]
  · simp [le_of_lt h2]
  · have hlt : ka < kb := lt_of_le_of_ne (le_of_not_lt h2) h1
    simp [not_le.mpr hlt]

theorem rowRel_one_iff {α K : Type} [LinearOrder K] (k : α → K) (a b : α) :
    rowRel k 1 a b ↔ k a ≤ k b := by
  unfold rowRel; exact jsCompare_one_le

theorem rowRel_negOne_iff {α K : Type} [LinearOrder K] (k : α → K) (a b : α) :
    rowRel k (-1) a b ↔ k b ≤ k a := by
  unfold rowRel; exact jsCompare_negOne_le

section SortTheory

variable {α K : Type} [LinearOrder K] (k : α → K)

/-- Inserting `a` does not disturb the subsequence of any key class other than
`a`'s own, and prepends `a` to its own class, provided the sort relation never
separates equal keys. -/
theorem filter_orderedInsert (r : α → α → Prop) [DecidableRel r]
    (hEq : ∀ a b, k a = k b → r a b) (c : K) (a : α) (l : List α) :
    (List.orderedInsert r a l).filter (fun x => decide (k x = c)) =
      if k a = c then a :: l.filter (fun x => decide (k x = c))
      else l.filter (fun x => decide (k x = c)) := by
  induction l with
  | nil =>
    by_cases h : k a = c <;> simp [List.orderedInsert, h]
  | cons b t ih =>
    simp only [List.orderedInsert]
    by_cases hr : r a b
    · rw [if_pos hr]
      by_cases h : k a = c <;> simp [List.filter_cons, h]
    · rw [if_neg hr]
      have hne : k a ≠ k b := fun he => hr (hEq a b he)
      by_cases h : k a = c
      · have hb : ¬ (k b = c) := fun hbc => hne (h.trans hbc.symm)
        simp [List.filter_cons, h, hb, ih]
      · by_cases hb : k b = c <;> simp [List.filter_cons, h, hb, ih]

/-- Stability of the sort, phrased per key class: sorting does not change the
subsequence of elements of any one key class. -/
theorem filter_insertionSort (r : α → α → Prop) [DecidableRel r]
    (hEq : ∀ a b, k a = k b → r a b) (c : K) (l : List α) :
    (List.insertionSort r l).filter (fun x => decide (k x = c)) =
      l.filter (fun x => decide (k x = c)) := by
  induction l with
  | nil => rfl
  | cons a t ih =>
    simp only [List.insertionSort]
    rw [filter_orderedInsert k r hEq c a _, ih]
    by_cases h : k a = c <;> simp [List.filter_cons, h]

/-- A list sorted by key is determined by its key-class subsequences: two
sorted permutations of each other with identical class subsequences agree. -/
theorem eq_of_sorted_of_classFilter :
    ∀ l1 l2 : List α, l1.Perm l2 →
      l1.Sorted (fun a b => k a ≤ k b) → l2.Sorted (fun a b => k a ≤ k b) →
      (∀ c : K, l1.filter (fun x => decide (k x = c)) =
        l2.filter (fun x => decide (k x = c))) →
      l1 = l2
  | [], l2, hp, _, _, _ => (List.Perm.eq_nil hp.symm).symm
  | a :: t1, l2, hp, hs1, hs2, hf => by
    cases l2 with
    | nil => exact absurd hp (by simp)
    | cons b t2 =>
      have hab : k a = k b := by
        have hbmem : b ∈ a :: t1 := hp.symm.subset (List.mem_cons_self b t2)
        have hamem : a ∈ b :: t2 := hp.subset (List.mem_cons_self a t1)
        have h1 : k a ≤ k b := by
          rcases List.mem_cons.mp hbmem with h | h
          · exact le_of_eq (congrArg k h.symm)
          · exact List.rel_of_sorted_cons hs1 b h
        have h2 : k b ≤ k a := by
          rcases List.mem_cons.mp hamem with h | h
          · exact le_of_eq (congrArg k h.symm)
          · exact List.rel_of_sorted_cons hs2 a h
        exact le_antisymm h1 h2
      have hfa := hf (k a)
      rw [List.filter_cons, List.filter_cons] at hfa
      simp only [decide_eq_true_eq] at hfa
      rw [if_pos hab.symm] at hfa
      simp only [if_true] at hfa
      injection hfa with hba hft
      subst hba
      have htl : t1 = t2 := by
        apply eq_of_sorted_of_classFilter t1 t2 (hp.cons_inv) hs1.of_cons hs2.of_cons
        intro c
        have hc := hf c
        rw [List.filter_cons, List.filter_cons] at hc
        by_cases h : k a = c
        · simp [h] at hc
          exact hc
        · simp [h] at hc
          exact hc
      rw [htl]

/-- The key identity behind direction toggling: re-sorting (stably) by `r` a
list that was stably re-sorted by any key-respecting relation `r'` from an
already `r`-sorted list gives that list back. -/
theorem sort_sort_of_sorted (r r' : α → α → Prop) [DecidableRel r] [DecidableRel r']
    (hr : ∀ a b, r a b ↔ k a ≤ k b) (hEq' : ∀ a b, k a = k b → r' a b)
    (A : List α) (hA : A.Sorted (fun a b => k a ≤ k b)) :
    List.insertionSort r (List.insertionSort r' A) = A := by
  haveI : IsTotal α r := ⟨fun a b => by rw [hr, hr]; exact le_total _ _⟩
  haveI : IsTrans α r :=
    ⟨fun a b c hab hbc => (hr a c).mpr (le_trans ((hr a b).mp hab) ((hr b c).mp hbc))⟩
  apply eq_of_sorted_of_classFilter k
  · exact (List.perm_insertionSort r _).trans (List.perm_insertionSort r' A)
  · exact (List.sorted_insertionSort r _).imp (fun {a b} h => (hr a b).mp h)
  · exact hA
  · intro c
    rw [filter_insertionSort k r (fun a b he => (hr a b).mpr (le_of_eq he)) c,
      filter_insertionSort k r' hEq' c]

/-- `asc` after `desc` after `asc` is `asc`. -/
theorem triple_sort_one (l : List α) :
    List.insertionSort (rowRel k 1)
        (List.insertionSort (rowRel k (-1)) (List.insertionSort (rowRel k 1) l)) =
      List.insertionSort (rowRel k 1) l := by
  haveI : IsTotal α (rowRel k 1) :=
    ⟨fun a b => by rw [rowRel_one_iff, rowRel_one_iff]; exact le_total _ _⟩
  haveI : IsTrans α (rowRel k 1) :=
    ⟨fun a b c hab hbc => (rowRel_one_iff k a c).mpr
      (le_trans ((rowRel_one_iff k a b).mp hab) ((rowRel_one_iff k b c).mp hbc))⟩
  apply sort_sort_of_sorted k (rowRel k 1) (rowRel k (-1))
  · exact rowRel_one_iff k
  · exact fun a b he => (rowRel_negOne_iff k a b).mpr (le_of_eq he.symm)
  · exact (List.sorted_insertionSort _ _).imp (fun {a b} h => (rowRel_one_iff k a b).mp h)

/-- `desc` after `asc` after `desc` is `desc` (the dual of `triple_sort_one`,
obtained by sorting the dual key). -/
theorem triple_sort_negOne (l : List α) :
    List.insertionSort (rowRel k (-1))
        (List.insertionSort (rowRel k 1) (List.insertionSort (rowRel k (-1)) l)) =
      List.insertionSort (rowRel k (-1)) l := by
  haveI : IsTotal α (rowRel k (-1)) :=
    ⟨fun a b => by rw [rowRel_negOne_iff, rowRel_negOne_iff]; exact (le_total _ _).symm⟩
  haveI : IsTrans α (rowRel k (-1)) :=
    ⟨fun a b c hab hbc => (rowRel_negOne_iff k a c).mpr
      (le_trans ((rowRel_negOne_iff k b c).mp hbc) ((rowRel_negOne_iff k a b).mp hab))⟩
  apply sort_sort_of_sorted (fun a => OrderDual.toDual (k a))
    (rowRel k (-1)) (rowRel k 1)
  · intro a b
    rw [rowRel_negOne_iff, OrderDual.toDual_le_toDual]
  · intro a b he
    exact (rowRel_one_iff k a b).mpr (le_of_eq (OrderDual.toDual_inj.mp he))
  · exact (List.sorted_insertionSort _ _).imp
      (fun {a b} h => OrderDual.toDual_le_toDual.mpr ((rowRel_negOne_iff k a b).mp h))

end SortTheory

theorem sortRows_triple_one (ty : String) (index : Nat) (l : List Row) :
    sortRows ty 1 index (sortRows ty (-1) index (sortRows ty 1 index l)) =
      sortRows ty 1 index l := by
  unfold sortRows
  by_cases h : ty = "number" <;> simp [h, triple_sort_one]

theorem sortRows_triple_negOne (ty : String) (index : Nat) (l : List Row) :
    sortRows ty (-1) index (sortRows ty 1 index (sortRows ty (-1) index l)) =
      sortRows ty (-1) index l := by
  unfold sortRows
  by_cases h : ty = "number" <;> simp [h, triple_sort_negOne]

section SortedLemmas

variable {α K : Type} [LinearOrder K] (k : α → K)

theorem sorted_sort_one (l : List α) :
    (List.insertionSort (rowRel k 1) l).Sorted (fun a b => k a ≤ k b) := by
  haveI : IsTotal α (rowRel k 1) :=
    ⟨fun a b => by rw [rowRel_one_iff, rowRel_one_iff]; exact le_total _ _⟩
  haveI : IsTrans α (rowRel k 1) :=
    ⟨fun a b c hab hbc => (rowRel_one_iff k a c).mpr
      (le_trans ((rowRel_one_iff k a b).mp hab) ((rowRel_one_iff k b c).mp hbc))⟩
  exact (List.sorted_insertionSort _ _).imp (fun {a b} h => (rowRel_one_iff k a b).mp h)

theorem sorted_sort_negOne (l : List α) :
    (List.insertionSort (rowRel k (-1)) l).Sorted (fun a b => k b ≤ k a) := by
  haveI : IsTotal α (rowRel k (-1)) :=
    ⟨fun a b => by rw [rowRel_negOne_iff, rowRel_negOne_iff]; exact (le_total _ _).symm⟩
  haveI : IsTrans α (rowRel k (-1)) :=
    ⟨fun a b c hab hbc => (rowRel_negOne_iff k a c).mpr
      (le_trans ((rowRel_negOne_iff k b c).mp hbc) ((rowRel_negOne_iff k a b).mp hab))⟩
  exact (List.sorted_insertionSort _ _).imp (fun {a b} h => (rowRel_negOne_iff k a b).mp h)

end SortedLemmas

/-- The empty string is minimal in the lexicographic string order. -/
theorem emptyStr_le (s : String) : "" ≤ s :=
  String.le_iff_toList_le.mpr (by simp)

/-! ### Demonstration data reused by the witnesses -/

def demoRows : List Row := [⟨0, ["30"], ""⟩, ⟨1, ["5"], ""⟩, ⟨2, ["100"], ""⟩]

def demoMixed : List Row := [⟨0, ["x"], ""⟩, ⟨1, ["5"], ""⟩]

def sortedRows : List Row := [⟨0, ["5"], ""⟩, ⟨1, ["30"], ""⟩]

def rowA : Row := ⟨0, ["5"], ""⟩

def emptyBodyTable : Table := ⟨none, none, none⟩

/-! ### The sorting claims -/

/-- Claim C3: one sort invocation flips the direction to descending exactly
when the recorded active column equals the requested one and the recorded
direction is ascending; in every other case (including the first sort) the
direction is ascending; afterwards, the requested column and the computed
direction are recorded on the table's sort state, and the body holds the rows
sorted in that direction. -/
theorem clickSort_direction (index : Nat) (ty : String) (t : Table) (rows : List Row)
    (h : t.tbody = some rows) :
    (clickSort index ty t).sortCol = some (toString index) ∧
    (clickSort index ty t).sortDir =
      some (if t.sortCol = some (toString index) ∧ t.sortDir = some "asc"
        then "desc" else "asc") ∧
    (clickSort index ty t).tbody =
      some (sortRows ty
        (if t.sortCol = some (toString index) ∧ t.sortDir = some "asc" then -1 else 1)
        index rows) := by
  by_cases h1 : t.sortCol = some (toString index) <;>
    by_cases h2 : t.sortDir = some "asc" <;>
      simp [clickSort, h, h1, h2]

theorem clickSort_direction_witness :
    (clickSort 0 "number" (freshTable demoRows)).sortCol = some (toString 0) ∧
    (clickSort 0 "number" (freshTable demoRows)).sortDir =
      some (if (freshTable demoRows).sortCol = some (toString 0) ∧
          (freshTable demoRows).sortDir = some "asc" then "desc" else "asc") ∧
    (clickSort 0 "number" (freshTable demoRows)).tbody =
      some (sortRows "number"
        (if (freshTable demoRows).sortCol = some (toString 0) ∧
          (freshTable demoRows).sortDir = some "asc" then -1 else 1) 0 demoRows) :=
  clickSort_direction 0 "number" (freshTable demoRows) demoRows rfl

/-- Claim C2: for a column declared `number`, the sort key of a cell is the
result of stripping commas, dollar signs, whitespace and percent signs and
parsing the rest as a (finite) floating-point value, any unparseable cell
mapping to the `-Infinity` key (`⊥`); consequently, in the ascending-sorted
body every unparseable row precedes every parseable one, and in the
descending-sorted body every unparseable row follows every parseable one. -/
theorem numeric_unparseable_ranks (index : Nat) (rows : List Row) :
    (∀ r : Row, numKey index r = ⊥ ↔
        jsParseFloatFinite (stripNum (jsTrim (cellTextAt index r))) = none) ∧
    (∀ i j : Fin (sortRows "number" 1 index rows).length,
      numKey index ((sortRows "number" 1 index rows).get i) = ⊥ →
      numKey index ((sortRows "number" 1 index rows).get j) ≠ ⊥ →
      (i : Nat) < (j : Nat)) ∧
    (∀ i j : Fin (sortRows "number" (-1) index rows).length,
      numKey index ((sortRows "number" (-1) index rows).get i) ≠ ⊥ →
      numKey index ((sortRows "number" (-1) index rows).get j) = ⊥ →
      (i : Nat) < (j : Nat)) := by
  refine ⟨fun r => ?_, fun i j hbot hne => ?_, fun i j hne hbot => ?_⟩
  · unfold numKey parseCellValueNum
    cases heq : jsParseFloatFinite (stripNum (jsTrim (cellTextAt index r))) <;>
      simp [heq]
  · have hs : (sortRows "number" 1 index rows).Sorted
        (fun a b => numKey index a ≤ numKey index b) := by
      unfold sortRows
      simpa using sorted_sort_one (numKey index) rows
    rcases lt_trichotomy (i : Nat) (j : Nat) with h | h | h
    · exact h
    · exact absurd (Fin.ext h ▸ hbot) hne
    · have hrel := hs.rel_get_of_lt (show j < i from h)
      exact absurd (le_bot_iff.mp (hbot ▸ hrel)) hne
  · have hs : (sortRows "number" (-1) index rows).Sorted
        (fun a b => numKey index b ≤ numKey index a) := by
      unfold sortRows
      simpa using sorted_sort_negOne (numKey index) rows
    rcases lt_trichotomy (i : Nat) (j : Nat) with h | h | h
    · exact h
    · exact absurd (Fin.ext h ▸ hbot) hne
    · have hrel := hs.rel_get_of_lt (show j < i from h)
      exact absurd (le_bot_iff.mp (hbot ▸ hrel)) hne

theorem numeric_unparseable_ranks_witness : (0 : Nat) < 1 ∧ (0 : Nat) < 1 :=
  ⟨(numeric_unparseable_ranks 0 demoMixed).2.1 ⟨0, by decide⟩ ⟨1, by decide⟩
      (by decide) (by decide),
    (numeric_unparseable_ranks 0 demoMixed).2.2 ⟨0, by decide⟩ ⟨1, by decide⟩
      (by decide) (by decide)⟩

/-- Claim C6: a row missing a cell at the requested column index reads as an
empty-string cell and carries the minimum sort weight for either column type
(`⊥` numerically, `""` lexicographically); a table without a body leaves a
sort click a no-op (the handler is never attached, modelled as identity). -/
theorem missing_cell_minimum (index : Nat) (ty : String) (r : Row) (t : Table) :
    (r.cells.length ≤ index →
      cellTextAt index r = "" ∧ numKey index r = ⊥ ∧ strKey index r = "" ∧
      (∀ r' : Row, numKey index r ≤ numKey index r' ∧ strKey index r ≤ strKey index r')) ∧
    (t.tbody = none → clickSort index ty t = t) := by
  constructor
  · intro hlen
    have hcell : cellTextAt index r = "" := List.getD_eq_default _ _ hlen
    have hnum : numKey index r = ⊥ := by
      unfold numKey
      rw [hcell]
      decide
    have hstr : strKey index r = "" := by
      unfold strKey
      rw [hcell]
      rfl
    exact ⟨hcell, hnum, hstr,
      fun r' => ⟨hnum ▸ bot_le, hstr ▸ emptyStr_le _⟩⟩
  · intro hnone
    simp [clickSort, hnone]

theorem missing_cell_minimum_witness :
    (numKey 5 rowA = ⊥ ∧ strKey 5 rowA = "") ∧
    clickSort 5 "number" emptyBodyTable = emptyBodyTable :=
  ⟨⟨((missing_cell_minimum 5 "number" rowA emptyBodyTable).1 (by decide)).2.1,
    ((missing_cell_minimum 5 "number" rowA emptyBodyTable).1 (by decide)).2.2.1⟩,
    (missing_cell_minimum 5 "number" rowA emptyBodyTable).2 rfl⟩

/-- Claim C5: filtering mutates only each item's display style — identity,
text content and sequence order are untouched — and sorting only permutes the
rows of the container, each row keeping its identity, cell contents and
visibility style. -/
theorem frame_effects (value : String) (items : List Item)
    (ty : String) (dir : Int) (index : Nat) (rows : List Row) :
    (applyFilter value items).map (fun it => (it.id, it.text)) =
      items.map (fun it => (it.id, it.text)) ∧
    (applyFilter value items).length = items.length ∧
    (sortRows ty dir index rows).Perm rows := by
  refine ⟨?_, ?_, ?_⟩
  · unfold applyFilter
    rw [List.map_map]
    exact List.map_congr_left (fun it _ => rfl)
  · unfold applyFilter
    exact List.length_map _ _
  · unfold sortRows
    by_cases h : ty = "number" <;> simp [h, List.perm_insertionSort]

/-! ### Claim C9 -/

/-- A sequence of header clicks applied in order. -/
def applyOps (ops : List (Nat × String)) (t : Table) : Table :=
  ops.foldl (fun acc op => clickSort op.1 op.2 acc) t

/-- Claim C9 as stated: restoration of the original pre-first-sort order is
possible only with an even number of direction toggles, all on one column. -/
def ClaimC9Statement : Prop :=
  ∀ (rows : List Row) (ops : List (Nat × String)), ops ≠ [] →
    tbodyRows (applyOps ops (freshTable rows)) = rows →
    Even ops.length ∧ ∃ p : Nat × String, ∀ op ∈ ops, op = p

/-- Claim C9 is false as stated: a single (odd) click on a column whose rows
are already in ascending order restores — indeed never leaves — the original
order, because the stable sort of a sorted list is the identity. -/
theorem claimC9_counterexample : ¬ ClaimC9Statement := by
  intro h
  have h2 := h sortedRows [(0, "number")] (by decide) (by decide)
  exact (by decide : ¬ Even (1 : Nat)) (by simpa using h2.1)

/-- Claim C9 (amended): an even number of toggles returns the rows (and the
recorded sort state) to what they were after the first toggle — ascending and
descending orders alternate with period two — but not, in general, to the
pre-first-sort order, and restoration of the original order does not require
an even toggle count.  Formally: three consecutive clicks on the same column
coincide with one click, from any starting state. -/
theorem clickSort_toggle_cycle (index : Nat) (ty : String) (t : Table) :
    clickSort index ty (clickSort index ty (clickSort index ty t)) =
      clickSort index ty t := by
  cases ht : t.tbody with
  | none => simp [clickSort, ht]
  | some rows =>
    by_cases hcond : t.sortCol = some (toString index) ∧ t.sortDir = some "asc"
    · have e1 : clickSort index ty t =
          ⟨some (sortRows ty (-1) index rows), some (toString index), some "desc"⟩ := by
        simp [clickSort, ht, hcond.1, hcond.2]
      have e2 : clickSort index ty
          ⟨some (sortRows ty (-1) index rows), some (toString index), some "desc"⟩ =
          ⟨some (sortRows ty 1 index (sortRows ty (-1) index rows)),
            some (toString index), some "asc"⟩ := by
        simp [clickSort]
      have e3 : clickSort index ty
          ⟨some (sortRows ty 1 index (sortRows ty (-1) index rows)),
            some (toString index), some "asc"⟩ =
          ⟨some (sortRows ty (-1) index
              (sortRows ty 1 index (sortRows ty (-1) index rows))),
            some (toString index), some "desc"⟩ := by
        simp [clickSort]
      rw [e1, e2, e3, sortRows_triple_negOne, ← e1]
    · have e1 : clickSort index ty t =
          ⟨some (sortRows ty 1 index rows), some (toString index), some "asc"⟩ := by
        rcases not_and_or.mp hcond with h1 | h1 <;> simp [clickSort, ht, h1]
      have e2 : clickSort index ty
          ⟨some (sortRows ty 1 index rows), some (toString index), some "asc"⟩ =
          ⟨some (sortRows ty (-1) index (sortRows ty 1 index rows)),
            some (toString index), some "desc"⟩ := by
        simp [clickSort]
      have e3 : clickSort index ty
          ⟨some (sortRows ty (-1) index (sortRows ty 1 index rows)),
            some (toString index), some "desc"⟩ =
          ⟨some (sortRows ty 1 index
              (sortRows ty (-1) index (sortRows ty 1 index rows))),
            some (toString index), some "asc"⟩ := by
        simp [clickSort]
      rw [e1, e2, e3, sortRows_triple_one, ← e1]

/-! ### Modal handlers (src/main.js 151-177, 254-259) -/

structure Modal where
  classes : List String
  ariaHidden : Option String
deriving DecidableEq, Repr

/-- `classList.add(c)`: appends the token when not already present. -/
def addClass (c : String) (cs : List String) : List String :=
  if c ∈ cs then cs else cs ++ [c]

/-- The `[data-modal-close]` click handler effect on the resolved modal:
`modal.classList.add('hidden'); modal.setAttribute('aria-hidden', 'true')`. -/
def closeBtnModal (m : Modal) : Modal :=
  { classes := addClass "hidden" m.classes, ariaHidden := some "true" }

/-- The `.modal` overlay click handler, in the case `e.target === modal`:
guarded by `modal.classList.contains('modal')`, it runs only
`modal.classList.add('hidden')` — `aria-hidden` is not written. -/
def overlayCloseModal (m : Modal) : Modal :=
  if "modal" ∈ m.classes then { m with classes := addClass "hidden" m.classes } else m

/-- The document `keydown` handler for Escape:
`$$('.modal:not(.hidden)').forEach(m => m.classList.add('hidden'))` —
every modal that is not yet hidden gains `hidden`; `aria-hidden` is not
written on any of them. -/
def escapeClose (ms : List Modal) : List Modal :=
  ms.map (fun m =>
    if "modal" ∈ m.classes ∧ ¬ ("hidden" ∈ m.classes)
    then { m with classes := addClass "hidden" m.classes } else m)

def demoModal : Modal := ⟨["modal"], some "false"⟩

/-- Claim C10: dismissing a modal via Escape or via an overlay click only adds
the `hidden` class and leaves `aria-hidden` unchanged, whereas the close
button sets `aria-hidden` to `'true'`; hence a modal closed by Escape or
overlay click can remain `aria-hidden="false"` while hidden. -/
theorem modal_dismissal_aria (m : Modal) (ms : List Modal) :
    (overlayCloseModal m).ariaHidden = m.ariaHidden ∧
    ("modal" ∈ m.classes → (overlayCloseModal m).classes = addClass "hidden" m.classes) ∧
    (escapeClose ms).map (fun x => x.ariaHidden) = ms.map (fun x => x.ariaHidden) ∧
    (closeBtnModal m).ariaHidden = some "true" ∧
    (∃ m0 : Modal,
      "hidden" ∈ (overlayCloseModal m0).classes ∧
      (overlayCloseModal m0).ariaHidden = some "false" ∧
      "hidden" ∈ ((escapeClose [m0]).headD m0).classes ∧
      ((escapeClose [m0]).headD m0).ariaHidden = some "false") := by
  refine ⟨?_, fun hm => ?_, ?_, rfl, ⟨demoModal, by decide, by decide, by decide, by decide⟩⟩
  · unfold overlayCloseModal
    by_cases hm : "modal" ∈ m.classes <;> simp [hm]
  · unfold overlayCloseModal
    simp [hm]
  · unfold escapeClose
    rw [List.map_map]
    refine List.map_congr_left (fun x _ => ?_)
    by_cases hx : "modal" ∈ x.classes ∧ ¬ ("hidden" ∈ x.classes) <;> simp [hx]

theorem modal_dismissal_aria_witness :
    (overlayCloseModal demoModal).ariaHidden = demoModal.ariaHidden ∧
    (overlayCloseModal demoModal).classes = addClass "hidden" demoModal.classes :=
  ⟨(modal_dismissal_aria demoModal []).1,
    (modal_dismissal_aria demoModal []).2.1 (by decide)⟩

/-! ### The clipboard helper (src/main.js 264-268)

`copyText: async (text) => { try { await navigator.clipboard.writeText(text);
return true; } catch { return false; } }` — the clipboard write is a browser
API, passed in as an oracle whose `Except` result models the promise
settling. -/

def copyText (write : String → Except String Unit) (text : String) : Bool :=
  match write text with
  | .ok _ => true
  | .error _ => false

/-- Claim C8: for every input text, a rejected clipboard write makes the
public copy helper return `false` (no exception escapes — the helper is a
total function into `Bool`), and a successful write makes it return `true`. -/
theorem copyText_result (write : String → Except String Unit) (text : String) :
    (∀ e, write text = .error e → copyText write text = false) ∧
    (write text = .ok () → copyText write text = true) := by
  refine ⟨fun e he => ?_, fun hok => ?_⟩
  · simp [copyText, he]
  · simp [copyText, hok]

theorem copyText_result_witness :
    copyText (fun _ => .error "denied") "x" = false ∧
    copyText (fun _ => .ok ()) "x" = true :=
  ⟨(copyText_result (fun _ => .error "denied") "x").1 "denied" rfl,
    (copyText_result (fun _ => .ok ()) "x").2 rfl⟩

/-! ### `mountCharts` (src/main.js 204-234)

Oracles: `chartJs` is `!!window.Chart`; `jsonOk s` means `JSON.parse(s)`
succeeds with a truthy value (a throw — malformed JSON — is `false`);
`lookup sel` is `document.querySelector(sel)`, `none` when nothing matches or
the selector is invalid (the throw is caught by the same `try`), otherwise
the matched element's `textContent`. -/

inductive ChartCfg where
  | parsed (src : String)
  | defaultLine
deriving DecidableEq, Repr

/-- A `.chart-canvas` element: its `data-chart-config` attribute, class list,
and a record of the `new Chart(...)` call mounted on it, if any. -/
structure Canvas where
  cfgAttr : Option String
  classes : List String
  rendered : Option ChartCfg
deriving DecidableEq, Repr

/-- The effect of `mountCharts` on one canvas.  Without `window.Chart` every
canvas just gains the `skeleton` class.  Otherwise `cfg` is computed from the
attribute (inline JSON when it starts with a brace after trimming, else via a
selector lookup), any parse failure leaving `cfg` null; a null `cfg` is
replaced by the built-in default line-chart configuration, and `new Chart` is
invoked unconditionally. -/
def mountCanvas (chartJs : Bool) (jsonOk : String → Bool)
    (lookup : String → Option String) (c : Canvas) : Canvas :=
  if !chartJs then { c with classes := addClass "skeleton" c.classes }
  else
    let cfg : Option ChartCfg :=
      match c.cfgAttr with
      | none => none
      | some s =>
        if s = "" then none
        else if prefixOfB ['\x7b'] (jsTrim s).data then
          (if jsonOk s then some (.parsed s) else none)
        else
          match lookup s with
          | some txt => if jsonOk txt then some (.parsed txt) else none
          | none => none
    let cfg2 := match cfg with | some v => v | none => ChartCfg.defaultLine
    { c with rendered := some cfg2 }

/-- A canvas whose inline configuration attribute is malformed JSON. -/
def badCanvas : Canvas := ⟨some "\x7b bad", [], none⟩

/-- Claim C4 as stated is false on the code: with the charting library present
and a configuration attribute that fails to parse as JSON, the canvas is NOT
marked with the placeholder (`skeleton`) state, and rendering IS attempted —
with the built-in default line-chart configuration. -/
theorem claimC4_counterexample :
    ¬ ("skeleton" ∈ (mountCanvas true (fun _ => false) (fun _ => none) badCanvas).classes) ∧
    (mountCanvas true (fun _ => false) (fun _ => none) badCanvas).rendered =
      some ChartCfg.defaultLine := by
  decide

/-- Claim C4 (amended): when the charting library is present and the inline
configuration attribute fails to parse as JSON, the failure is only logged,
the built-in default line-chart configuration is rendered in its place, and
no placeholder marking occurs; the placeholder (`skeleton`) state — with no
rendering attempted — arises exactly when the charting library is absent. -/
theorem mountCanvas_parse_failure (jsonOk : String → Bool)
    (lookup : String → Option String) (c : Canvas) (s : String) :
    ((mountCanvas false jsonOk lookup c).classes = addClass "skeleton" c.classes ∧
      (mountCanvas false jsonOk lookup c).rendered = c.rendered) ∧
    (c.cfgAttr = some s → s ≠ "" → prefixOfB ['\x7b'] (jsTrim s).data = true →
      jsonOk s = false →
      (mountCanvas true jsonOk lookup c).rendered = some ChartCfg.defaultLine ∧
      (mountCanvas true jsonOk lookup c).classes = c.classes) := by
  refine ⟨⟨rfl, rfl⟩, fun h1 h2 h3 h4 => ?_⟩
  simp [mountCanvas, h1, h2, h3, h4]

theorem mountCanvas_parse_failure_witness :
    (mountCanvas true (fun _ => false) (fun _ => none) badCanvas).rendered =
      some ChartCfg.defaultLine ∧
    (mountCanvas true (fun _ => false) (fun _ => none) badCanvas).classes =
      badCanvas.classes :=
  (mountCanvas_parse_failure (fun _ => false) (fun _ => none) badCanvas "\x7b bad").2
    rfl (by decide) (by decide) rfl

end PhPharma
